import Mathlib

/-!
# Verification of the CAFS write path (`writeBufferToCafs.ts`)

This file gives a shallow embedding of `src/store/cafs/src/writeBufferToCafs.ts`
(the write path of pnpm's content-addressable file store) and proves the
spec's claims about it.

Modelling choices:

* File contents are byte lists (`Bytes`); the filesystem is an association
  list from absolute path to an entry, where an entry is either a readable
  file or a path whose metadata cannot be read (stat fails with an error
  code).  Error codes are strings, as in Node (`"ENOENT"`, `"EACCES"`, ...).
* The outcome of the two fallible disk mutations (`writeFile` and the
  `renameOverwrite` package call) is decided by a `DiskEnv` oracle,
  indexed by the logical clock at the moment the operation completes; the
  code's handling of those outcomes is translated from the source.
* `Date.now()` reads a logical clock that advances by one at every
  filesystem suspension point, so time is monotone during a session.
* The cooperative async semantics of the coordinator is embedded as an
  atomic-step machine (`Session`, `writeBufferToCafs`, `bodyStep`):
  the synchronous prefix of `writeBufferToCafs` (locker lookup, promise
  creation, locker registration, up to the first `await`) is one atomic
  step, exactly as in JavaScript, and each `await` boundary of the
  promise body is a separate step.  A scheduler (`runOps`) interleaves
  call steps and body steps arbitrarily.
-/

/-- Bytes of a file or of a digest. -/
abbrev Bytes := List Nat

/-- Node error codes are strings ("ENOENT", "EACCES", ...). -/
abbrev ErrCode := String

/-- `ssri.IntegrityLike`: an integrity descriptor.  The concrete ssri digest
machinery is opaque to this module; we keep the algorithm tag and the
digest bytes, and take the hash function itself as a parameter (`DiskEnv.hash`). -/
structure IntegrityLike where
  algorithm : String
  digest : Bytes
deriving DecidableEq, Repr

/-- The `{ size, integrity }` record passed to `verifyFileIntegrity`. -/
structure FileInfo where
  size : Nat
  integrity : IntegrityLike
deriving DecidableEq, Repr

/-- `fs.Stats` restricted to the field the code reads. -/
structure Stats where
  size : Nat
deriving DecidableEq, Repr

/-- A filesystem entry: a readable file, or a path whose metadata cannot be
read (any stat/read of it fails with the stored error code). -/
inductive FsEntry where
  | file (content : Bytes)
  | unreadable (code : ErrCode)
deriving DecidableEq, Repr

/-- The filesystem: an association list from absolute path to entry. -/
abbrev Fs := List (String × FsEntry)

/-- Association-list lookup (first match wins, like `Map.get`). -/
def alookup {κ α : Type} [DecidableEq κ] : List (κ × α) → κ → Option α
  | [], _ => none
  | (k, v) :: rest, key => if key = k then some v else alookup rest key

/-- Association-list update of an existing key, leaving other keys alone. -/
def aupdate {κ α : Type} [DecidableEq κ] : List (κ × α) → κ → α → List (κ × α)
  | [], _, _ => []
  | (k, v) :: rest, key, nv =>
      if key = k then (key, nv) :: rest else (k, v) :: aupdate rest key nv

/-- Remove a key from an association list. -/
def aremove {κ α : Type} [DecidableEq κ] : List (κ × α) → κ → List (κ × α)
  | [], _ => []
  | (k, v) :: rest, key => if key = k then rest else (k, v) :: aremove rest key

/-- `fs.stat`: absent paths fail with ENOENT, unreadable paths with their code. -/
def fsStat (fs : Fs) (path : String) : Except ErrCode Stats :=
  match alookup fs path with
  | none => .error "ENOENT"
  | some (.unreadable c) => .error c
  | some (.file content) => .ok ⟨content.length⟩

/-- Read a file's content; fails where stat fails. -/
def fsRead (fs : Fs) (path : String) : Except ErrCode Bytes :=
  match alookup fs path with
  | none => .error "ENOENT"
  | some (.unreadable c) => .error c
  | some (.file content) => .ok content

/-- `existsSync` from `fs`: true iff the path has a directory entry
(readable or not). -/
def existsSync (fs : Fs) (path : String) : Bool :=
  (alookup fs path).isSome

/-- Create-or-truncate a single path with the given content. -/
def fsSetFile (fs : Fs) (path : String) (content : Bytes) : Fs :=
  match alookup fs path with
  | none => (path, .file content) :: fs
  | some _ => aupdate fs path (.file content)

/-- The effect of a successful `renameOverwrite`: the source entry replaces
whatever was at the destination and the source path disappears. -/
def moveFile (fs : Fs) (src dest : String) : Fs :=
  match alookup fs src with
  | none => fs
  | some e => fsSetFile (aremove fs src) dest (match e with | .file c => c | .unreadable _ => [])

/-! ## Path functions (`path.basename`, `path.dirname`, `path.join`)

Node's path library, restricted to the normalized relative paths the store
uses (`"ab/cd1234"`-style keys joined under a store directory). -/

/-- `path.basename`: the part after the last separator. -/
def basename (p : String) : String :=
  String.mk (p.toList.reverse.takeWhile (· ≠ '/')).reverse

/-- `path.dirname`: everything before the last separator; `"."` when there
is no separator. -/
def dirname (p : String) : String :=
  let cs := p.toList
  if cs.any (· = '/') then
    String.mk ((cs.reverse.dropWhile (· ≠ '/')).drop 1).reverse
  else "."

/-- `path.join` for already-normalized segments. -/
def pathJoin (a b : String) : String :=
  if a = "." then b else if a = "" then b else if b = "" then a else a ++ "/" ++ b

/-! ## The Temp-Name Allocator (`removeSuffix`, `pathTemp`) -/

/-- `removeSuffix` from the source: truncate the file name at the first
dash; when the suffix is exactly `"-exec"`, append the compact marker `"x"`
to the truncated base instead. -/
def removeSuffix (filePath : String) : String :=
  let cs := filePath.toList
  match cs.findIdx? (· = '-') with
  | none => filePath
  | some dashPosition =>
      let withoutSuffix := String.mk (cs.take dashPosition)
      if String.mk (cs.drop dashPosition) = "-exec" then
        withoutSuffix ++ "x"
      else
        withoutSuffix

/-- `pathTemp` from the source: the temp file sits next to the destination
and is named by the truncated base followed by the process id. -/
def pathTemp (procId : Nat) (file : String) : String :=
  let b := removeSuffix (basename file)
  pathJoin (dirname file) (b ++ toString procId)

/-! ## Disk oracle -/

/-- The environment's contribution to a run: the digest function backing the
integrity descriptors, the current process id, and the outcome of each
fallible disk mutation, indexed by the logical clock at which the operation
completes (`none` = success, `some c` = failure with code `c`). -/
structure DiskEnv where
  hash : Bytes → Bytes
  procId : Nat
  writeResult : Nat → Option ErrCode
  renameResult : Nat → Option ErrCode

/-! ## The Integrity Verifier and the skip check -/

/-- Modelled from the spec: `verifyFileIntegrity` lives in
`src/store/cafs/src/checkPkgFilesIntegrity.ts`, which is not part of the
sources given; per the spec it is a non-throwing boolean check that
compares the size first and computes the digest only when the size
matches, folding every negative outcome into `false`. -/
def verifyFileIntegrity (hash : Bytes → Bytes) (fs : Fs) (filename : String)
    (expected : FileInfo) : Bool :=
  match fsRead fs filename with
  | .error _ => false
  | .ok content =>
      content.length = expected.size && hash content = expected.integrity.digest

/-- `existsSame` from the source: stat the destination, folding any stat
error into `false`; otherwise verify the existing file against the request's
integrity descriptor and the stat'd size.  The `Except` result type records
that the stat error is caught rather than propagated. -/
def existsSame (hash : Bytes → Bytes) (fs : Fs) (filename : String)
    (integrity : IntegrityLike) : Except ErrCode Bool :=
  match fsStat fs filename with
  | .error _ => .ok false
  | .ok existingFile =>
      .ok (verifyFileIntegrity hash fs filename ⟨existingFile.size, integrity⟩)

/-! ## The Atomic Committer (`optimisticRenameOverwrite`) -/

/-- Modelled from the spec at its boundary: the `rename-overwrite` package
(an external dependency) atomically replaces the destination with the
source; its success or failure is decided by the oracle at the current
clock. -/
def renameOverwrite (env : DiskEnv) (clock : Nat) (fs : Fs) (temp fileDest : String) :
    Except ErrCode Fs :=
  match env.renameResult clock with
  | some e => .error e
  | none => .ok (moveFile fs temp fileDest)

/-- `optimisticRenameOverwrite` from the source: try the rename; on failure,
rethrow unless the error is ENOENT while a file exists at the destination,
in which case the race is tolerated and the call succeeds without touching
the filesystem. -/
def optimisticRenameOverwrite (env : DiskEnv) (clock : Nat) (fs : Fs)
    (temp fileDest : String) : Except ErrCode Fs :=
  match renameOverwrite env clock fs temp fileDest with
  | .ok fs' => .ok fs'
  | .error err =>
      if err != "ENOENT" || !existsSync fs fileDest then .error err else .ok fs

/-- Modelled from the spec: `writeFile` lives in
`src/store/cafs/src/writeFile.ts`, which is not part of the sources given;
per the spec it writes the full buffer to the single temp path with
create-or-truncate semantics (the mode bits only affect permission
metadata, which nothing in this module reads back). -/
def writeFile (fs : Fs) (path : String) (buffer : Bytes) (_mode : Option Nat) : Fs :=
  fsSetFile fs path buffer

/-! ## The Write Coordinator as an atomic-step machine

The body of the async IIFE inside `writeBufferToCafs` suspends at its
`await`s; between two suspension points it runs atomically.  `BodyPC` is
the program counter of one promise body at its suspension points, and
`bodyStep` runs one segment.  `writeBufferToCafs` itself is the
synchronous part of the coordinator: lookup, promise creation and locker
registration happen in one atomic step, with no suspension in between. -/

/-- Arguments captured by one promise body. -/
structure BodyCfg where
  buffer : Bytes
  mode : Option Nat
  integrity : IntegrityLike
  fileDest : String
deriving DecidableEq, Repr

/-- Program counter of a promise body at its suspension points:
about to run the skip check; about to write the temp file; or about to
commit, carrying the already-captured birth timestamp. -/
inductive BodyPC where
  | start
  | doWrite
  | doRename (birthtimeMs : Nat)
deriving DecidableEq, Repr

/-- The lifecycle of one locker promise. -/
inductive PromiseState where
  | pending (pc : BodyPC)
  | resolved (birthtimeMs : Nat)
  | rejected (code : ErrCode)
deriving DecidableEq, Repr

/-- A promise: its captured arguments and its current state. -/
structure PromiseSt where
  cfg : BodyCfg
  state : PromiseState
deriving DecidableEq, Repr

/-- Filesystem trace events: one per disk suspension of the write path. -/
inductive Ev where
  | statE (path : String)
  | tempWrite (path : String)
  | renameE (src dest : String)
deriving DecidableEq, Repr

/-- One store session: the locker `Map` (destination path to promise id),
the promise table, the fresh-id counter, the shared filesystem, the
logical clock read by `Date.now()`, and the trace of disk operations
(most recent first). -/
structure Session where
  locker : List (String × Nat)
  promises : List (Nat × PromiseSt)
  nextId : Nat
  fs : Fs
  clock : Nat
  trace : List Ev
deriving DecidableEq, Repr

/-- A fresh session over an arbitrary initial disk and clock. -/
def initSession (fs : Fs) (clock : Nat) : Session :=
  { locker := [], promises := [], nextId := 0, fs := fs, clock := clock, trace := [] }

/-- The state of promise `prid` in session `s`, if it exists. -/
def promState (s : Session) (prid : Nat) : Option PromiseState :=
  (alookup s.promises prid).map (·.state)

/-- `writeBufferToCafs` from the source, synchronous prefix: join the
destination under the store directory; if the locker already has it,
return the registered promise and touch nothing; otherwise create the
pending promise and register it in the locker before any suspension
point.  Returns the promise id handed to the caller. -/
def writeBufferToCafs (s : Session) (cafsDir : String) (buffer : Bytes)
    (fileDest : String) (mode : Option Nat) (integrity : IntegrityLike) :
    Nat × Session :=
  let dest := pathJoin cafsDir fileDest
  match alookup s.locker dest with
  | some prid => (prid, s)
  | none =>
      let prid := s.nextId
      (prid,
        { s with
          locker := (dest, prid) :: s.locker
          promises := (prid, ⟨⟨buffer, mode, integrity, dest⟩, .pending .start⟩) :: s.promises
          nextId := s.nextId + 1 })

/-- Run one suspension segment of promise `prid`'s body.  A missing or
already-settled promise leaves the session unchanged.
`start`: complete `await existsSame`; on a match resolve with
`Date.now()`, else fall through to the write path.
`doWrite`: complete `await writeFile(temp, buffer, mode)`; on failure
reject, on success capture `birthtimeMs = Date.now()` and proceed to the
commit.
`doRename`: complete `await optimisticRenameOverwrite(temp, fileDest)`;
resolve with the captured birth timestamp, or reject with the rethrown
error. -/
def bodyStep (env : DiskEnv) (prid : Nat) (s : Session) : Session :=
  match alookup s.promises prid with
  | none => s
  | some p =>
      match p.state with
      | .resolved _ => s
      | .rejected _ => s
      | .pending pc =>
          match pc with
          | .start =>
              let st :=
                match existsSame env.hash s.fs p.cfg.fileDest p.cfg.integrity with
                | .ok true => PromiseState.resolved (s.clock + 1)
                | .ok false => PromiseState.pending .doWrite
                | .error e => PromiseState.rejected e
              { s with
                promises := aupdate s.promises prid ⟨p.cfg, st⟩
                clock := s.clock + 1
                trace := .statE p.cfg.fileDest :: s.trace }
          | .doWrite =>
              let temp := pathTemp env.procId p.cfg.fileDest
              match env.writeResult s.clock with
              | some e =>
                  { s with
                    promises := aupdate s.promises prid ⟨p.cfg, .rejected e⟩
                    clock := s.clock + 1
                    trace := .tempWrite temp :: s.trace }
              | none =>
                  { s with
                    promises := aupdate s.promises prid ⟨p.cfg, .pending (.doRename (s.clock + 1))⟩
                    fs := writeFile s.fs temp p.cfg.buffer p.cfg.mode
                    clock := s.clock + 1
                    trace := .tempWrite temp :: s.trace }
          | .doRename birthtimeMs =>
              let temp := pathTemp env.procId p.cfg.fileDest
              match optimisticRenameOverwrite env s.clock s.fs temp p.cfg.fileDest with
              | .ok fs' =>
                  { s with
                    promises := aupdate s.promises prid ⟨p.cfg, .resolved birthtimeMs⟩
                    fs := fs'
                    clock := s.clock + 1
                    trace := .renameE temp p.cfg.fileDest :: s.trace }
              | .error e =>
                  { s with
                    promises := aupdate s.promises prid ⟨p.cfg, .rejected e⟩
                    clock := s.clock + 1
                    trace := .renameE temp p.cfg.fileDest :: s.trace }

/-- A scheduler operation: a caller invoking `writeBufferToCafs`, or the
event loop running the next segment of some promise body. -/
inductive SOp where
  | call (cafsDir : String) (buffer : Bytes) (fileDest : String)
         (mode : Option Nat) (integrity : IntegrityLike)
  | step (prid : Nat)
deriving DecidableEq, Repr

/-- Run a list of scheduler operations; returns the final session and the
promise id each call handed back to its caller, in call order. -/
def runOps (env : DiskEnv) (s : Session) : List SOp → Session × List Nat
  | [] => (s, [])
  | .call cafsDir buffer fileDest mode integrity :: rest =>
      let r := writeBufferToCafs s cafsDir buffer fileDest mode integrity
      let r' := runOps env r.2 rest
      (r'.1, r.1 :: r'.2)
  | .step prid :: rest => runOps env (bodyStep env prid s) rest

/-- Count of temp-write events in a trace. -/
def tcount (tr : List Ev) : Nat :=
  tr.countP fun e => match e with | .tempWrite _ => true | _ => false

/-- Count of rename events in a trace. -/
def rcount (tr : List Ev) : Nat :=
  tr.countP fun e => match e with | .renameE _ _ => true | _ => false

/-- A promise that has settled (resolved or rejected). -/
def isSettled : PromiseState → Bool
  | .pending _ => false
  | .resolved _ => true
  | .rejected _ => true

/-- Session well-formedness: every registered promise id is below the
fresh-id counter (true of every session the coordinator builds). -/
def sessionWF (s : Session) : Prop :=
  ∀ kv ∈ s.promises, kv.1 < s.nextId

/-- `op` is either a body step or a call for the given store directory and
destination key. -/
def callsTo (cafsDir fileDest : String) : SOp → Bool
  | .call c _ f _ _ => c = cafsDir && f = fileDest
  | .step _ => true

/-- Bookkeeping for the single-writer argument: how many temp writes and
renames a destination's trace can show, given where its one promise body
stands. -/
def countsOK : PromiseState → List Ev → Prop
  | .pending .start, tr => tcount tr = 0 ∧ rcount tr = 0
  | .pending .doWrite, tr => tcount tr = 0 ∧ rcount tr = 0
  | .pending (.doRename _), tr => tcount tr = 1 ∧ rcount tr = 0
  | .resolved _, tr => tcount tr ≤ 1 ∧ rcount tr ≤ 1
  | .rejected _, tr => tcount tr ≤ 1 ∧ rcount tr ≤ 1

/-- Invariant of a session all of whose calls target the destination `D`:
either nothing has been requested yet, or exactly one promise (id 0) owns
`D`, with trace counts bounded by its progress. -/
def InvC1 (D : String) (s : Session) : Prop :=
  (s.locker = [] ∧ s.promises = [] ∧ s.nextId = 0 ∧
   tcount s.trace = 0 ∧ rcount s.trace = 0)
  ∨ (s.locker = [(D, 0)] ∧ s.nextId = 1 ∧
     ∃ st : PromiseSt, s.promises = [(0, st)] ∧ countsOK st.state s.trace)

/-! ## Concrete scenario data used by the witnesses -/

/-- A concrete stand-in digest function: the content length, one byte. -/
def hashLen : Bytes → Bytes := fun b => [b.length % 256]

/-- Descriptor matching the buffer `[1, 2, 3]` under `hashLen`. -/
def integ3 : IntegrityLike := ⟨"sha512", [3]⟩

/-- Oracle where every disk mutation succeeds. -/
def envOk : DiskEnv := ⟨hashLen, 7, fun _ => none, fun _ => none⟩

/-- Oracle where every temp write fails with EACCES. -/
def envWriteFail : DiskEnv := ⟨hashLen, 7, fun _ => some "EACCES", fun _ => none⟩

/-- Oracle where every rename fails with ENOENT (racing container). -/
def envRaceRename : DiskEnv := ⟨hashLen, 7, fun _ => none, fun _ => some "ENOENT"⟩

/-- A disk already holding matching content at the destination. -/
def fsDest1 : Fs := [("store/ab/cd1", .file [1, 2, 3])]

/-- A disk holding one corrupt byte at the destination. -/
def fsDest9 : Fs := [("store/ab/cd1", .file [9])]

/-- A session whose locker already resolved `store/ab/cd1` at time 11. -/
def sesResolvedW : Session :=
  ⟨[("store/ab/cd1", 0)], [(0, ⟨⟨[1, 2, 3], none, integ3, "store/ab/cd1"⟩, .resolved 11⟩)],
   1, fsDest1, 12, []⟩

/-- A session whose locker already rejected `store/ab/cd1` with EACCES. -/
def sesRejectedW : Session :=
  ⟨[("store/ab/cd1", 0)], [(0, ⟨⟨[1, 2, 3], none, integ3, "store/ab/cd1"⟩, .rejected "EACCES"⟩)],
   1, [], 12, []⟩

/-- A session whose promise 0 is about to perform its temp write. -/
def sesDoWriteW : Session :=
  ⟨[("store/ab/cd1", 0)], [(0, ⟨⟨[1, 2, 3], none, integ3, "store/ab/cd1"⟩, .pending .doWrite⟩)],
   1, [], 1, [.statE "store/ab/cd1"]⟩

/-- A session whose promise 0 captured birth time 2 and is about to
commit, with the temp file on disk and a racing writer's file already at
the destination. -/
def sesDoRenameW : Session :=
  ⟨[("store/ab/cd1", 0)],
   [(0, ⟨⟨[1, 2, 3], none, integ3, "store/ab/cd1"⟩, .pending (.doRename 2)⟩)],
   1, [("store/ab/cd17", .file [1, 2, 3]), ("store/ab/cd1", .file [9])], 2,
   [.tempWrite "store/ab/cd17", .statE "store/ab/cd1"]⟩

/-- Three interleaved callers of one destination plus the body schedule. -/
def opsSameDest : List SOp :=
  [.call "store" [1, 2, 3] "ab/cd1" none integ3,
   .call "store" [1, 2, 3] "ab/cd1" (some 420) integ3,
   .step 0, .step 0,
   .call "store" [4, 5] "ab/cd1" none ⟨"sha512", [9]⟩,
   .step 0]

/-- Two callers of one destination whose write fails. -/
def opsFailDest : List SOp :=
  [.call "store" [1, 2, 3] "ab/cd1" none integ3,
   .call "store" [1, 2, 3] "ab/cd1" none integ3,
   .step 0, .step 0]

/-! # Theorems -/

/-! ## Association-list lemmas -/

theorem alookup_mem {κ α : Type} [DecidableEq κ] :
    ∀ (l : List (κ × α)) (k : κ) (v : α), alookup l k = some v → (k, v) ∈ l := by
  intro l
  induction l with
  | nil => intro k v h; simp [alookup] at h
  | cons kv rest ih =>
      intro k v h
      obtain ⟨k', v'⟩ := kv
      by_cases hk : k = k'
      · subst hk
        simp [alookup] at h
        simp [h]
      · rw [alookup, if_neg hk] at h
        exact List.mem_cons_of_mem _ (ih k v h)

theorem alookup_aupdate_ne {κ α : Type} [DecidableEq κ] :
    ∀ (l : List (κ × α)) (key k : κ) (nv : α), k ≠ key →
      alookup (aupdate l key nv) k = alookup l k := by
  intro l
  induction l with
  | nil => intro key k nv _; rfl
  | cons kv rest ih =>
      intro key k nv hne
      obtain ⟨k', v'⟩ := kv
      by_cases hk : key = k'
      · subst hk
        rw [aupdate, if_pos rfl, alookup, alookup, if_neg hne, if_neg hne]
      · rw [aupdate, if_neg hk]
        by_cases hkk : k = k'
        · rw [alookup, if_pos hkk, alookup, if_pos hkk]
        · rw [alookup, if_neg hkk, alookup, if_neg hkk, ih key k nv hne]

theorem alookup_aupdate_self {κ α : Type} [DecidableEq κ] :
    ∀ (l : List (κ × α)) (k : κ) (v nv : α), alookup l k = some v →
      alookup (aupdate l k nv) k = some nv := by
  intro l
  induction l with
  | nil => intro k v nv h; simp [alookup] at h
  | cons kv rest ih =>
      intro k v nv h
      obtain ⟨k', v'⟩ := kv
      by_cases hk : k = k'
      · rw [aupdate, if_pos hk, alookup, if_pos rfl]
      · rw [alookup, if_neg hk] at h
        rw [aupdate, if_neg hk, alookup, if_neg hk, ih k v nv h]

theorem aupdate_keys_sub {κ α : Type} [DecidableEq κ] :
    ∀ (l : List (κ × α)) (key : κ) (nv : α) (kv : κ × α), kv ∈ aupdate l key nv →
      kv.1 = key ∨ kv ∈ l := by
  intro l
  induction l with
  | nil => intro key nv kv h; simp [aupdate] at h
  | cons hd rest ih =>
      intro key nv kv h
      obtain ⟨k', v'⟩ := hd
      by_cases hk : key = k'
      · subst hk
        rw [aupdate, if_pos rfl] at h
        rcases List.mem_cons.mp h with h | h
        · left; rw [h]
        · right; exact List.mem_cons_of_mem _ h
      · rw [aupdate, if_neg hk] at h
        rcases List.mem_cons.mp h with h | h
        · right; rw [h]; exact List.mem_cons_self _ _
        · rcases ih key nv kv h with h | h
          · left; exact h
          · right; exact List.mem_cons_of_mem _ h

/-! ## String helpers for the Temp-Name Allocator -/

theorem append_right_ne_of_length_ne (a b p : String) (h : a.length ≠ b.length) :
    a ++ p ≠ b ++ p := by
  intro heq
  apply h
  have hl := congrArg String.length heq
  simp only [String.length_append] at hl
  omega

theorem append_ne_empty_of_length_pos (a p : String) (h : 0 < a.length) :
    a ++ p ≠ "" := by
  intro heq
  have hl := congrArg String.length heq
  simp only [String.length_append] at hl
  rw [show ("" : String).length = 0 from rfl] at hl
  omega

theorem pathTemp_eval_of_parts (procId : Nat) (file d b : String)
    (hd : dirname file = d) (hb : removeSuffix (basename file) = b)
    (hdot : d ≠ ".") (hempty : d ≠ "") (hbpos : 0 < b.length) :
    pathTemp procId file = (d ++ "/" ++ b) ++ toString procId := by
  rw [pathTemp, hd, hb, pathJoin,
    if_neg hdot, if_neg hempty,
    if_neg (append_ne_empty_of_length_pos b (toString procId) hbpos)]
  simp [String.append_assoc]

/-! ## C3 — temp-name derivation -/

/-- C3 counterexample: the claim asserts that the temp name of a
destination with basename `"foo-other"` is distinct from the temp name of
a destination with basename `"foo"`, but `removeSuffix` truncates
`"foo-other"` at the first dash, so both destinations yield the same temp
name. -/
theorem pathTemp_other_collides_with_plain :
    pathTemp 42 "d/foo-other" = pathTemp 42 "d/foo" := by decide

/-- C3 (amended): `pathTemp` of a destination with basename `"foo-exec"`
ends in the executable marker `"x"` followed by the process id and is
distinct from the temp names of `"foo-other"` and of `"foo"`; however
the temp names of `"foo-other"` and `"foo"` coincide, because the suffix
after the first dash is discarded unless it is exactly `"-exec"`. -/
theorem pathTemp_name_derivation (procId : Nat) :
    pathTemp procId "d/foo-exec" = ("d/foo" ++ "x") ++ toString procId ∧
    pathTemp procId "d/foo-exec" ≠ pathTemp procId "d/foo-other" ∧
    pathTemp procId "d/foo-exec" ≠ pathTemp procId "d/foo" ∧
    pathTemp procId "d/foo-other" = pathTemp procId "d/foo" := by
  have he : pathTemp procId "d/foo-exec" = ("d" ++ "/" ++ "foox") ++ toString procId :=
    pathTemp_eval_of_parts procId "d/foo-exec" "d" "foox"
      (by decide) (by decide) (by decide) (by decide) (by decide)
  have ho : pathTemp procId "d/foo-other" = ("d" ++ "/" ++ "foo") ++ toString procId :=
    pathTemp_eval_of_parts procId "d/foo-other" "d" "foo"
      (by decide) (by decide) (by decide) (by decide) (by decide)
  have hp : pathTemp procId "d/foo" = ("d" ++ "/" ++ "foo") ++ toString procId :=
    pathTemp_eval_of_parts procId "d/foo" "d" "foo"
      (by decide) (by decide) (by decide) (by decide) (by decide)
  refine ⟨?_, ?_, ?_, ?_⟩
  · rw [he, (by decide : ("d" ++ "/" ++ "foox" : String) = "d/foo" ++ "x")]
  · rw [he, ho]
    exact append_right_ne_of_length_ne _ _ _ (by decide)
  · rw [he, hp]
    exact append_right_ne_of_length_ne _ _ _ (by decide)
  · rw [ho, hp]

/-! ## C2 — the tolerated race of the Atomic Committer -/

/-- C2: when the rename fails, `optimisticRenameOverwrite` succeeds (without
touching the filesystem) exactly when the failure is ENOENT while a file
exists at the destination; every other failure — including ENOENT with the
destination also missing — is rethrown. -/
theorem optimisticRenameOverwrite_failure_cases (env : DiskEnv) (clock : Nat) (fs : Fs)
    (temp fileDest : String) (e : ErrCode) (h : env.renameResult clock = some e) :
    optimisticRenameOverwrite env clock fs temp fileDest =
      if e = "ENOENT" ∧ existsSync fs fileDest = true then .ok fs else .error e := by
  simp only [optimisticRenameOverwrite, renameOverwrite, h]
  by_cases h1 : e = "ENOENT" <;> by_cases h2 : existsSync fs fileDest <;>
    simp [h1, h2]

/-- C2 witness: with a rename oracle failing with ENOENT, the commit
succeeds when the destination holds a file and rethrows when the
destination is missing too. -/
theorem optimisticRenameOverwrite_failure_cases_witness :
    envRaceRename.renameResult 12 = some "ENOENT" ∧
    optimisticRenameOverwrite envRaceRename 12 fsDest9 "store/ab/cd17" "store/ab/cd1" =
      .ok fsDest9 ∧
    optimisticRenameOverwrite envRaceRename 12 [] "store/ab/cd17" "store/ab/cd1" =
      .error "ENOENT" := by
  refine ⟨rfl, ?_, ?_⟩
  · rw [optimisticRenameOverwrite_failure_cases envRaceRename 12 fsDest9
      "store/ab/cd17" "store/ab/cd1" "ENOENT" rfl]
    rw [if_pos ⟨rfl, by decide⟩]
  · rw [optimisticRenameOverwrite_failure_cases envRaceRename 12 []
      "store/ab/cd17" "store/ab/cd1" "ENOENT" rfl]
    rw [if_neg (by decide)]

/-! ## C8 — the skip check fails closed -/

/-- C8: any stat failure inside `existsSame` — destination absent (ENOENT)
or metadata unreadable (any other code) — is caught and folded into the
boolean result `.ok false`; no stat error escapes as a thrown error. -/
theorem existsSame_stat_error_folded (hash : Bytes → Bytes) (fs : Fs) (filename : String)
    (integrity : IntegrityLike) (c : ErrCode) (h : fsStat fs filename = .error c) :
    existsSame hash fs filename integrity = .ok false := by
  simp only [existsSame, h]

/-- C8 witness: an absent destination (ENOENT) and an unreadable
destination (EACCES) both make the skip check report `false` rather than
throw. -/
theorem existsSame_stat_error_folded_witness :
    fsStat [] "store/ab/cd1" = .error "ENOENT" ∧
    existsSame hashLen [] "store/ab/cd1" integ3 = .ok false ∧
    fsStat [("store/ab/cd1", .unreadable "EACCES")] "store/ab/cd1" = .error "EACCES" ∧
    existsSame hashLen [("store/ab/cd1", .unreadable "EACCES")] "store/ab/cd1" integ3 =
      .ok false :=
  ⟨rfl,
   existsSame_stat_error_folded hashLen [] "store/ab/cd1" integ3 "ENOENT" rfl,
   rfl,
   existsSame_stat_error_folded hashLen [("store/ab/cd1", .unreadable "EACCES")]
     "store/ab/cd1" integ3 "EACCES" rfl⟩

/-! ## C5 — resolved locker entries short-circuit -/

/-- C5: a call for a destination whose locker entry is already resolved
returns the registered promise and leaves the session — filesystem, clock
and trace included — completely untouched: not even the skip-check stat
runs, and the caller receives the cached timestamp of the first call. -/
theorem writeBufferToCafs_resolved_cache_hit (s : Session) (cafsDir fileDest : String)
    (buffer : Bytes) (mode : Option Nat) (integrity : IntegrityLike) (p t : Nat)
    (hhit : alookup s.locker (pathJoin cafsDir fileDest) = some p)
    (hres : promState s p = some (.resolved t)) :
    writeBufferToCafs s cafsDir buffer fileDest mode integrity = (p, s) ∧
    promState (writeBufferToCafs s cafsDir buffer fileDest mode integrity).2 p =
      some (.resolved t) := by
  have h : writeBufferToCafs s cafsDir buffer fileDest mode integrity = (p, s) := by
    simp only [writeBufferToCafs, hhit]
  exact ⟨h, by rw [h]; exact hres⟩

/-- C5 witness: a repeat of the write that resolved `store/ab/cd1` at time
11 returns the same promise, the same timestamp 11, and does not change
the session. -/
theorem writeBufferToCafs_resolved_cache_hit_witness :
    alookup sesResolvedW.locker (pathJoin "store" "ab/cd1") = some 0 ∧
    promState sesResolvedW 0 = some (.resolved 11) ∧
    writeBufferToCafs sesResolvedW "store" [1, 2, 3] "ab/cd1" none integ3 =
      (0, sesResolvedW) := by
  refine ⟨by decide, by decide, ?_⟩
  exact (writeBufferToCafs_resolved_cache_hit sesResolvedW "store" "ab/cd1" [1, 2, 3]
    none integ3 0 11 (by decide) (by decide)).1

/-! ## C9 — deduplication is keyed on the destination path alone -/

/-- C9: once the destination has a locker entry, a later call returns that
entry with the session unchanged, and its result is entirely independent
of the buffer, mode and integrity descriptor it passes: differing content
is never written, hashed or rejected. -/
theorem writeBufferToCafs_dedup_ignores_args (s : Session) (cafsDir fileDest : String)
    (p : Nat) (hhit : alookup s.locker (pathJoin cafsDir fileDest) = some p)
    (b₁ b₂ : Bytes) (m₁ m₂ : Option Nat) (i₁ i₂ : IntegrityLike) :
    writeBufferToCafs s cafsDir b₁ fileDest m₁ i₁ = (p, s) ∧
    writeBufferToCafs s cafsDir b₁ fileDest m₁ i₁ =
      writeBufferToCafs s cafsDir b₂ fileDest m₂ i₂ := by
  have h1 : writeBufferToCafs s cafsDir b₁ fileDest m₁ i₁ = (p, s) := by
    simp only [writeBufferToCafs, hhit]
  have h2 : writeBufferToCafs s cafsDir b₂ fileDest m₂ i₂ = (p, s) := by
    simp only [writeBufferToCafs, hhit]
  exact ⟨h1, h1.trans h2.symm⟩

/-- C9 witness: a later call with a different buffer, mode and descriptor
still returns the registered promise and leaves the session unchanged. -/
theorem writeBufferToCafs_dedup_ignores_args_witness :
    alookup sesResolvedW.locker (pathJoin "store" "ab/cd1") = some 0 ∧
    writeBufferToCafs sesResolvedW "store" [9, 9] "ab/cd1" (some 493) ⟨"sha1", [0]⟩ =
      (0, sesResolvedW) := by
  refine ⟨by decide, ?_⟩
  exact (writeBufferToCafs_dedup_ignores_args sesResolvedW "store" "ab/cd1" 0 (by decide)
    [9, 9] [1, 2, 3] (some 493) none ⟨"sha1", [0]⟩ integ3).1

/-! ## C4 — skip-on-match performs no write -/

/-- C4: on a first call for a destination whose existing content verifies
against the supplied descriptor, the write-or-skip body resolves at its
first suspension point with a timestamp at least the clock at call time,
the filesystem is untouched (no temp file is ever created, no rename
runs), and the only trace event is the skip-check stat. -/
theorem writeBufferToCafs_skip_on_match (env : DiskEnv) (s : Session)
    (cafsDir fileDest : String) (buffer : Bytes) (mode : Option Nat)
    (integrity : IntegrityLike)
    (hnew : alookup s.locker (pathJoin cafsDir fileDest) = none)
    (hmatch : existsSame env.hash s.fs (pathJoin cafsDir fileDest) integrity = .ok true) :
    ∃ t, s.clock ≤ t ∧
      promState
        (bodyStep env (writeBufferToCafs s cafsDir buffer fileDest mode integrity).1
          (writeBufferToCafs s cafsDir buffer fileDest mode integrity).2)
        (writeBufferToCafs s cafsDir buffer fileDest mode integrity).1 =
        some (.resolved t) ∧
      (bodyStep env (writeBufferToCafs s cafsDir buffer fileDest mode integrity).1
          (writeBufferToCafs s cafsDir buffer fileDest mode integrity).2).fs = s.fs ∧
      (bodyStep env (writeBufferToCafs s cafsDir buffer fileDest mode integrity).1
          (writeBufferToCafs s cafsDir buffer fileDest mode integrity).2).trace =
        .statE (pathJoin cafsDir fileDest) :: s.trace := by
  refine ⟨s.clock + 1, Nat.le_succ s.clock, ?_, ?_, ?_⟩ <;>
    simp [writeBufferToCafs, hnew, bodyStep, promState, alookup, aupdate, hmatch]

/-- C4 witness: with matching content already at `store/ab/cd1`, the first
call resolves after the skip check with a timestamp past the call time,
leaving the disk and trace free of temp writes and renames. -/
theorem writeBufferToCafs_skip_on_match_witness :
    alookup (initSession fsDest1 5).locker (pathJoin "store" "ab/cd1") = none ∧
    existsSame envOk.hash (initSession fsDest1 5).fs (pathJoin "store" "ab/cd1") integ3 =
      .ok true ∧
    ∃ t, (initSession fsDest1 5).clock ≤ t ∧
      promState
        (bodyStep envOk
          (writeBufferToCafs (initSession fsDest1 5) "store" [1, 2, 3] "ab/cd1" none integ3).1
          (writeBufferToCafs (initSession fsDest1 5) "store" [1, 2, 3] "ab/cd1" none integ3).2)
        (writeBufferToCafs (initSession fsDest1 5) "store" [1, 2, 3] "ab/cd1" none integ3).1 =
        some (.resolved t) ∧
      (bodyStep envOk
          (writeBufferToCafs (initSession fsDest1 5) "store" [1, 2, 3] "ab/cd1" none integ3).1
          (writeBufferToCafs (initSession fsDest1 5) "store" [1, 2, 3] "ab/cd1" none integ3).2).fs =
        (initSession fsDest1 5).fs ∧
      (bodyStep envOk
          (writeBufferToCafs (initSession fsDest1 5) "store" [1, 2, 3] "ab/cd1" none integ3).1
          (writeBufferToCafs (initSession fsDest1 5) "store" [1, 2, 3] "ab/cd1" none integ3).2).trace =
        .statE (pathJoin "store" "ab/cd1") :: (initSession fsDest1 5).trace :=
  ⟨by decide, rfl,
   writeBufferToCafs_skip_on_match envOk (initSession fsDest1 5) "store" "ab/cd1"
     [1, 2, 3] none integ3 (by decide) rfl⟩

/-! ## C7 — the birth timestamp is captured between write and commit -/

/-- C7: when the temp write completes, the body captures `Date.now()` —
the clock right after the write, with the commit not yet run — as the
pending birth timestamp; and the commit step resolves with exactly that
captured value, both when the rename succeeds and when it takes the
tolerated-race branch. -/
theorem writeBufferToCafs_birthtime_capture (env : DiskEnv) (s : Session) (prid : Nat)
    (p : PromiseSt) (hp : alookup s.promises prid = some p) :
    (p.state = .pending .doWrite → env.writeResult s.clock = none →
       promState (bodyStep env prid s) prid =
         some (.pending (.doRename (bodyStep env prid s).clock)) ∧
       (bodyStep env prid s).clock = s.clock + 1 ∧
       (bodyStep env prid s).fs =
         writeFile s.fs (pathTemp env.procId p.cfg.fileDest) p.cfg.buffer p.cfg.mode ∧
       rcount (bodyStep env prid s).trace = rcount s.trace) ∧
    (∀ b, p.state = .pending (.doRename b) →
       (env.renameResult s.clock = none ∨
        (env.renameResult s.clock = some "ENOENT" ∧ existsSync s.fs p.cfg.fileDest = true)) →
       promState (bodyStep env prid s) prid = some (.resolved b)) := by
  constructor
  · intro hst hw
    simp [bodyStep, hp, hst, hw, promState, alookup_aupdate_self s.promises prid p _ hp,
      rcount, List.countP_cons]
  · intro b hst hr
    rcases hr with hr | ⟨hr, hex⟩
    · simp [bodyStep, hp, hst, optimisticRenameOverwrite, renameOverwrite, hr, promState,
        alookup_aupdate_self s.promises prid p _ hp]
    · simp [bodyStep, hp, hst, optimisticRenameOverwrite, renameOverwrite, hr, hex, promState,
        alookup_aupdate_self s.promises prid p _ hp]

/-- C7 witness: at the write step the captured stamp equals the post-write
clock (2) with the commit still pending, and the commit step — here
taking the tolerated-race branch — resolves with exactly that stamp. -/
theorem writeBufferToCafs_birthtime_capture_witness :
    alookup sesDoWriteW.promises 0 =
      some ⟨⟨[1, 2, 3], none, integ3, "store/ab/cd1"⟩, .pending .doWrite⟩ ∧
    promState (bodyStep envOk 0 sesDoWriteW) 0 =
      some (.pending (.doRename (bodyStep envOk 0 sesDoWriteW).clock)) ∧
    (bodyStep envOk 0 sesDoWriteW).clock = sesDoWriteW.clock + 1 ∧
    promState (bodyStep envRaceRename 0 sesDoRenameW) 0 = some (.resolved 2) := by
  refine ⟨by decide, ?_, ?_, ?_⟩
  · exact ((writeBufferToCafs_birthtime_capture envOk sesDoWriteW 0 _ rfl).1 rfl rfl).1
  · exact ((writeBufferToCafs_birthtime_capture envOk sesDoWriteW 0 _ rfl).1 rfl rfl).2.1
  · exact (writeBufferToCafs_birthtime_capture envRaceRename sesDoRenameW 0 _ rfl).2 2 rfl
      (Or.inr ⟨rfl, by decide⟩)

/-! ## Structural lemmas about the coordinator steps -/

theorem bodyStep_locker (env : DiskEnv) (prid : Nat) (s : Session) :
    (bodyStep env prid s).locker = s.locker := by
  unfold bodyStep
  dsimp only
  repeat' split <;> try rfl

theorem bodyStep_nextId (env : DiskEnv) (prid : Nat) (s : Session) :
    (bodyStep env prid s).nextId = s.nextId := by
  unfold bodyStep
  dsimp only
  repeat' split <;> try rfl

theorem bodyStep_promises (env : DiskEnv) (prid : Nat) (s : Session) :
    bodyStep env prid s = s ∨
    ∃ v pr, alookup s.promises prid = some pr ∧ isSettled pr.state = false ∧
      (bodyStep env prid s).promises = aupdate s.promises prid v := by
  rcases h : alookup s.promises prid with _ | pr
  · left; simp [bodyStep, h]
  · rcases hst : pr.state with pc | t | e
    · right
      rcases pc with _ | _ | b
      · rcases hex : existsSame env.hash s.fs pr.cfg.fileDest pr.cfg.integrity with e3 | b3
        · exact ⟨⟨pr.cfg, .rejected e3⟩, pr, rfl, by rw [hst]; rfl,
            by simp [bodyStep, h, hst, hex]⟩
        · cases b3
          · exact ⟨⟨pr.cfg, .pending .doWrite⟩, pr, rfl, by rw [hst]; rfl,
              by simp [bodyStep, h, hst, hex]⟩
          · exact ⟨⟨pr.cfg, .resolved (s.clock + 1)⟩, pr, rfl, by rw [hst]; rfl,
              by simp [bodyStep, h, hst, hex]⟩
      · rcases hw : env.writeResult s.clock with _ | e2
        · exact ⟨⟨pr.cfg, .pending (.doRename (s.clock + 1))⟩, pr, rfl, by rw [hst]; rfl,
            by simp [bodyStep, h, hst, hw]⟩
        · exact ⟨⟨pr.cfg, .rejected e2⟩, pr, rfl, by rw [hst]; rfl,
            by simp [bodyStep, h, hst, hw]⟩
      · rcases hr : optimisticRenameOverwrite env s.clock s.fs
            (pathTemp env.procId pr.cfg.fileDest) pr.cfg.fileDest with e2 | fs2
        · exact ⟨⟨pr.cfg, .rejected e2⟩, pr, rfl, by rw [hst]; rfl,
            by simp [bodyStep, h, hst, hr]⟩
        · exact ⟨⟨pr.cfg, .resolved b⟩, pr, rfl, by rw [hst]; rfl,
            by simp [bodyStep, h, hst, hr]⟩
    · left; simp [bodyStep, h, hst]
    · left; simp [bodyStep, h, hst]

theorem call_preserves (s : Session) (cafsDir : String) (buffer : Bytes)
    (fileDest : String) (mode : Option Nat) (integrity : IntegrityLike)
    (D : String) (p : Nat) (q : PromiseSt)
    (hwf : sessionWF s) (hl : alookup s.locker D = some p)
    (hq : alookup s.promises p = some q) :
    sessionWF (writeBufferToCafs s cafsDir buffer fileDest mode integrity).2 ∧
    alookup (writeBufferToCafs s cafsDir buffer fileDest mode integrity).2.locker D = some p ∧
    alookup (writeBufferToCafs s cafsDir buffer fileDest mode integrity).2.promises p = some q := by
  rcases h : alookup s.locker (pathJoin cafsDir fileDest) with _ | prid
  · have hDne : D ≠ pathJoin cafsDir fileDest := by
      intro heq; rw [heq, h] at hl; exact Option.noConfusion hl
    have hpne : p ≠ s.nextId := by
      intro heq
      exact absurd (hwf (p, q) (alookup_mem s.promises p q hq)) (by rw [heq]; omega)
    refine ⟨?_, ?_, ?_⟩
    · intro kv hkv
      simp only [writeBufferToCafs, h] at hkv
      rcases List.mem_cons.mp hkv with hkv | hkv
      · simp only [writeBufferToCafs, h]
        rw [hkv]; omega
      · simp only [writeBufferToCafs, h]
        have := hwf kv hkv; omega
    · simp only [writeBufferToCafs, h, alookup, if_neg hDne]
      exact hl
    · simp only [writeBufferToCafs, h, alookup, if_neg hpne]
      exact hq
  · simp only [writeBufferToCafs, h]
    exact ⟨hwf, hl, hq⟩

theorem step_preserves (env : DiskEnv) (prid : Nat) (s : Session)
    (D : String) (p : Nat) (q : PromiseSt)
    (hset : isSettled q.state = true)
    (hwf : sessionWF s) (hl : alookup s.locker D = some p)
    (hq : alookup s.promises p = some q) :
    sessionWF (bodyStep env prid s) ∧
    alookup (bodyStep env prid s).locker D = some p ∧
    alookup (bodyStep env prid s).promises p = some q := by
  rcases bodyStep_promises env prid s with heq | ⟨v, pr, hpr, hpend, hup⟩
  · rw [heq]; exact ⟨hwf, hl, hq⟩
  · have hpne : p ≠ prid := by
      intro heq
      rw [heq, hpr] at hq
      have hpq : pr = q := Option.some_inj.mp hq
      rw [hpq, hset] at hpend
      exact Bool.noConfusion hpend
    refine ⟨?_, ?_, ?_⟩
    · intro kv hkv
      rw [hup] at hkv
      rw [bodyStep_nextId]
      rcases aupdate_keys_sub s.promises prid v kv hkv with hkv1 | hkv1
      · rw [hkv1]
        exact hwf (prid, pr) (alookup_mem s.promises prid pr hpr)
      · exact hwf kv hkv1
    · rw [bodyStep_locker]; exact hl
    · rw [hup, alookup_aupdate_ne s.promises prid p v hpne]; exact hq

theorem settled_persists_run (env : DiskEnv) (D : String) (p : Nat) (q : PromiseSt)
    (hset : isSettled q.state = true) :
    ∀ (ops : List SOp) (s : Session), sessionWF s →
      alookup s.locker D = some p → alookup s.promises p = some q →
      sessionWF (runOps env s ops).1 ∧
      alookup (runOps env s ops).1.locker D = some p ∧
      alookup (runOps env s ops).1.promises p = some q := by
  intro ops
  induction ops with
  | nil => intro s hwf hl hq; exact ⟨hwf, hl, hq⟩
  | cons op rest ih =>
      intro s hwf hl hq
      cases op with
      | call cafsDir buffer fileDest mode integrity =>
          have h := call_preserves s cafsDir buffer fileDest mode integrity D p q hwf hl hq
          have hrest := ih _ h.1 h.2.1 h.2.2
          simpa [runOps] using hrest
      | step prid =>
          have h := step_preserves env prid s D p q hset hwf hl hq
          have hrest := ih _ h.1 h.2.1 h.2.2
          simpa [runOps] using hrest

/-! ## C10 — a failed write is cached for the session -/

/-- C10: once a destination's promise has rejected, an immediate repeat
call returns that same rejected promise with the session untouched (no
skip check, no write attempt), and after any further scheduler activity
whatsoever the locker still maps the destination to the same promise,
still rejected with the same error — the failure is cached for the rest
of the session. -/
theorem writeBufferToCafs_failed_write_cached (env : DiskEnv) (s : Session)
    (cafsDir fileDest : String) (p : Nat) (q : PromiseSt) (e : ErrCode)
    (hwf : sessionWF s)
    (hl : alookup s.locker (pathJoin cafsDir fileDest) = some p)
    (hq : alookup s.promises p = some q)
    (hrej : q.state = .rejected e) :
    (∀ (buffer : Bytes) (mode : Option Nat) (integrity : IntegrityLike),
       writeBufferToCafs s cafsDir buffer fileDest mode integrity = (p, s)) ∧
    (∀ ops : List SOp,
       alookup (runOps env s ops).1.locker (pathJoin cafsDir fileDest) = some p ∧
       promState (runOps env s ops).1 p = some (.rejected e)) := by
  constructor
  · intro buffer mode integrity
    simp only [writeBufferToCafs, hl]
  · intro ops
    have h := settled_persists_run env (pathJoin cafsDir fileDest) p q
      (by rw [hrej]; rfl) ops s hwf hl hq
    refine ⟨h.2.1, ?_⟩
    rw [promState, h.2.2, Option.map_some', hrej]

/-- C10 witness: with `store/ab/cd1` rejected with EACCES, a repeat call
returns the cached rejection unchanged, and after further steps and calls
the locker still holds the same rejected promise. -/
theorem writeBufferToCafs_failed_write_cached_witness :
    sessionWF sesRejectedW ∧
    writeBufferToCafs sesRejectedW "store" [1, 2, 3] "ab/cd1" none integ3 =
      (0, sesRejectedW) ∧
    alookup (runOps envOk sesRejectedW
        [.step 0, .call "store" [7] "ab/cd1" none integ3]).1.locker
      (pathJoin "store" "ab/cd1") = some 0 ∧
    promState (runOps envOk sesRejectedW
        [.step 0, .call "store" [7] "ab/cd1" none integ3]).1 0 =
      some (.rejected "EACCES") := by
  have h := writeBufferToCafs_failed_write_cached envOk sesRejectedW "store" "ab/cd1" 0
    ⟨⟨[1, 2, 3], none, integ3, "store/ab/cd1"⟩, .rejected "EACCES"⟩ "EACCES"
    (by unfold sessionWF; decide) (by decide) (by decide) rfl
  exact ⟨by unfold sessionWF; decide, h.1 [1, 2, 3] none integ3,
    (h.2 [.step 0, .call "store" [7] "ab/cd1" none integ3]).1,
    (h.2 [.step 0, .call "store" [7] "ab/cd1" none integ3]).2⟩

/-! ## Trace-count lemmas -/

theorem tcount_cons_stat (x : String) (tr : List Ev) :
    tcount (.statE x :: tr) = tcount tr := by
  simp [tcount, List.countP_cons]

theorem rcount_cons_stat (x : String) (tr : List Ev) :
    rcount (.statE x :: tr) = rcount tr := by
  simp [rcount, List.countP_cons]

theorem tcount_cons_temp (x : String) (tr : List Ev) :
    tcount (.tempWrite x :: tr) = tcount tr + 1 := by
  simp [tcount, List.countP_cons]

theorem rcount_cons_temp (x : String) (tr : List Ev) :
    rcount (.tempWrite x :: tr) = rcount tr := by
  simp [rcount, List.countP_cons]

theorem tcount_cons_ren (x y : String) (tr : List Ev) :
    tcount (.renameE x y :: tr) = tcount tr := by
  simp [tcount, List.countP_cons]

theorem rcount_cons_ren (x y : String) (tr : List Ev) :
    rcount (.renameE x y :: tr) = rcount tr + 1 := by
  simp [rcount, List.countP_cons]

/-! ## The single-writer invariant -/

theorem invC1_counts (D : String) (s : Session) (h : InvC1 D s) :
    tcount s.trace ≤ 1 ∧ rcount s.trace ≤ 1 := by
  rcases h with ⟨_, _, _, ht, hr⟩ | ⟨_, _, st, _, hc⟩
  · omega
  · rcases hst : st.state with pc | t | e
    · rw [hst] at hc
      rcases pc with _ | _ | b <;> obtain ⟨h1, h2⟩ := hc <;> omega
    · rw [hst] at hc; obtain ⟨h1, h2⟩ := hc; omega
    · rw [hst] at hc; obtain ⟨h1, h2⟩ := hc; omega

theorem invC1_call (s : Session) (cafsDir : String) (buffer : Bytes) (fileDest : String)
    (mode : Option Nat) (integrity : IntegrityLike)
    (h : InvC1 (pathJoin cafsDir fileDest) s) :
    (writeBufferToCafs s cafsDir buffer fileDest mode integrity).1 = 0 ∧
    InvC1 (pathJoin cafsDir fileDest)
      (writeBufferToCafs s cafsDir buffer fileDest mode integrity).2 := by
  rcases h with ⟨hl, hp, hn, ht, hr⟩ | ⟨hl, hn, st, hp, hc⟩
  · have hlk : alookup s.locker (pathJoin cafsDir fileDest) = none := by rw [hl]; rfl
    constructor
    · simp [writeBufferToCafs, alookup, hlk, hn]
    · right
      refine ⟨?_, ?_,
        ⟨⟨buffer, mode, integrity, pathJoin cafsDir fileDest⟩, .pending .start⟩, ?_, ?_⟩
      · simp [writeBufferToCafs, alookup, hlk, hl, hn]
      · simp [writeBufferToCafs, alookup, hlk, hn]
      · simp [writeBufferToCafs, alookup, hlk, hp, hn]
      · have htr : (writeBufferToCafs s cafsDir buffer fileDest mode integrity).2.trace =
            s.trace := by simp [writeBufferToCafs, alookup, hlk]
        rw [htr]
        exact ⟨ht, hr⟩
  · have hlk : alookup s.locker (pathJoin cafsDir fileDest) = some 0 := by
      rw [hl]; simp [alookup]
    constructor
    · simp [writeBufferToCafs, alookup, hlk]
    · have heq : (writeBufferToCafs s cafsDir buffer fileDest mode integrity).2 = s := by
        simp [writeBufferToCafs, alookup, hlk]
      rw [heq]
      exact Or.inr ⟨hl, hn, st, hp, hc⟩

theorem invC1_step (env : DiskEnv) (prid : Nat) (D : String) (s : Session)
    (h : InvC1 D s) : InvC1 D (bodyStep env prid s) := by
  rcases h with ⟨hl, hp, hn, ht, hr⟩ | ⟨hl, hn, st, hp, hc⟩
  · have hlk : alookup s.promises prid = none := by rw [hp]; rfl
    left
    refine ⟨?_, ?_, ?_, ?_, ?_⟩ <;> simp [bodyStep, alookup, hlk, hl, hp, hn, ht, hr]
  · by_cases hid : prid = 0
    case neg =>
      have hlk : alookup s.promises prid = none := by
        rw [hp]; simp [alookup, hid]
      have heq : bodyStep env prid s = s := by simp [bodyStep, alookup, hlk]
      rw [heq]
      exact Or.inr ⟨hl, hn, st, hp, hc⟩
    case pos =>
      subst hid
      have hlk : alookup s.promises 0 = some st := by rw [hp]; simp [alookup]
      have hcc := hc
      rcases hst : st.state with pc | t | e
      · rw [hst] at hc
        rcases pc with _ | _ | b
        · obtain ⟨h1, h2⟩ := hc
          right
          rcases hex : existsSame env.hash s.fs st.cfg.fileDest st.cfg.integrity with e3 | b3
          · refine ⟨?_, ?_, ⟨st.cfg, .rejected e3⟩, ?_, ?_⟩
            · rw [bodyStep_locker]; exact hl
            · rw [bodyStep_nextId]; exact hn
            · simp [bodyStep, alookup, hlk, hst, hex, hp, aupdate]
            · have htr : (bodyStep env 0 s).trace = .statE st.cfg.fileDest :: s.trace := by
                simp [bodyStep, alookup, hlk, hst, hex]
              rw [htr]
              exact ⟨by rw [tcount_cons_stat]; omega, by rw [rcount_cons_stat]; omega⟩
          · cases b3
            · refine ⟨?_, ?_, ⟨st.cfg, .pending .doWrite⟩, ?_, ?_⟩
              · rw [bodyStep_locker]; exact hl
              · rw [bodyStep_nextId]; exact hn
              · simp [bodyStep, alookup, hlk, hst, hex, hp, aupdate]
              · have htr : (bodyStep env 0 s).trace = .statE st.cfg.fileDest :: s.trace := by
                  simp [bodyStep, alookup, hlk, hst, hex]
                rw [htr]
                exact ⟨by rw [tcount_cons_stat]; omega, by rw [rcount_cons_stat]; omega⟩
            · refine ⟨?_, ?_, ⟨st.cfg, .resolved (s.clock + 1)⟩, ?_, ?_⟩
              · rw [bodyStep_locker]; exact hl
              · rw [bodyStep_nextId]; exact hn
              · simp [bodyStep, alookup, hlk, hst, hex, hp, aupdate]
              · have htr : (bodyStep env 0 s).trace = .statE st.cfg.fileDest :: s.trace := by
                  simp [bodyStep, alookup, hlk, hst, hex]
                rw [htr]
                exact ⟨by rw [tcount_cons_stat]; omega, by rw [rcount_cons_stat]; omega⟩
        · obtain ⟨h1, h2⟩ := hc
          right
          rcases hw : env.writeResult s.clock with _ | e2
          · refine ⟨?_, ?_, ⟨st.cfg, .pending (.doRename (s.clock + 1))⟩, ?_, ?_⟩
            · rw [bodyStep_locker]; exact hl
            · rw [bodyStep_nextId]; exact hn
            · simp [bodyStep, alookup, hlk, hst, hw, hp, aupdate]
            · have htr : (bodyStep env 0 s).trace =
                  .tempWrite (pathTemp env.procId st.cfg.fileDest) :: s.trace := by
                simp [bodyStep, alookup, hlk, hst, hw]
              rw [htr]
              exact ⟨by rw [tcount_cons_temp]; omega, by rw [rcount_cons_temp]; omega⟩
          · refine ⟨?_, ?_, ⟨st.cfg, .rejected e2⟩, ?_, ?_⟩
            · rw [bodyStep_locker]; exact hl
            · rw [bodyStep_nextId]; exact hn
            · simp [bodyStep, alookup, hlk, hst, hw, hp, aupdate]
            · have htr : (bodyStep env 0 s).trace =
                  .tempWrite (pathTemp env.procId st.cfg.fileDest) :: s.trace := by
                simp [bodyStep, alookup, hlk, hst, hw]
              rw [htr]
              exact ⟨by rw [tcount_cons_temp]; omega, by rw [rcount_cons_temp]; omega⟩
        · obtain ⟨h1, h2⟩ := hc
          right
          rcases hr2 : optimisticRenameOverwrite env s.clock s.fs
              (pathTemp env.procId st.cfg.fileDest) st.cfg.fileDest with e2 | fs2
          · refine ⟨?_, ?_, ⟨st.cfg, .rejected e2⟩, ?_, ?_⟩
            · rw [bodyStep_locker]; exact hl
            · rw [bodyStep_nextId]; exact hn
            · simp [bodyStep, alookup, hlk, hst, hr2, hp, aupdate]
            · have htr : (bodyStep env 0 s).trace =
                  .renameE (pathTemp env.procId st.cfg.fileDest) st.cfg.fileDest :: s.trace := by
                simp [bodyStep, alookup, hlk, hst, hr2]
              rw [htr]
              exact ⟨by rw [tcount_cons_ren]; omega, by rw [rcount_cons_ren]; omega⟩
          · refine ⟨?_, ?_, ⟨st.cfg, .resolved b⟩, ?_, ?_⟩
            · rw [bodyStep_locker]; exact hl
            · rw [bodyStep_nextId]; exact hn
            · simp [bodyStep, alookup, hlk, hst, hr2, hp, aupdate]
            · have htr : (bodyStep env 0 s).trace =
                  .renameE (pathTemp env.procId st.cfg.fileDest) st.cfg.fileDest :: s.trace := by
                simp [bodyStep, alookup, hlk, hst, hr2]
              rw [htr]
              exact ⟨by rw [tcount_cons_ren]; omega, by rw [rcount_cons_ren]; omega⟩
      · have heq : bodyStep env 0 s = s := by simp [bodyStep, alookup, hlk, hst]
        rw [heq]
        exact Or.inr ⟨hl, hn, st, hp, hcc⟩
      · have heq : bodyStep env 0 s = s := by simp [bodyStep, alookup, hlk, hst]
        rw [heq]
        exact Or.inr ⟨hl, hn, st, hp, hcc⟩

theorem invC1_run (env : DiskEnv) (cafsDir fileDest : String) :
    ∀ (ops : List SOp) (s : Session),
      ops.all (callsTo cafsDir fileDest) = true →
      InvC1 (pathJoin cafsDir fileDest) s →
      (∀ x ∈ (runOps env s ops).2, x = 0) ∧
      InvC1 (pathJoin cafsDir fileDest) (runOps env s ops).1 := by
  intro ops
  induction ops with
  | nil =>
      intro s _ hinv
      exact ⟨by simp [runOps], hinv⟩
  | cons op rest ih =>
      intro s hall hinv
      rw [List.all_cons, Bool.and_eq_true] at hall
      cases op with
      | call c buffer f mode integrity =>
          have hcf : c = cafsDir ∧ f = fileDest := by
            have h1 := hall.1
            simp [callsTo] at h1
            exact h1
          obtain ⟨rfl, rfl⟩ := hcf
          have hcall := invC1_call s c buffer f mode integrity hinv
          have hrest := ih (writeBufferToCafs s c buffer f mode integrity).2 hall.2 hcall.2
          constructor
          · intro x hx
            simp only [runOps] at hx
            rcases List.mem_cons.mp hx with hx | hx
            · rw [hx]; exact hcall.1
            · exact hrest.1 x hx
          · simp only [runOps]
            exact hrest.2
      | step prid =>
          have hstep := invC1_step env prid (pathJoin cafsDir fileDest) s hinv
          have hrest := ih (bodyStep env prid s) hall.2 hstep
          constructor
          · intro x hx
            simp only [runOps] at hx
            exact hrest.1 x hx
          · simp only [runOps]
            exact hrest.2

/-! ## C1 — dedup within one session -/

/-- C1: in a session over any initial disk, for any interleaving of N ≥ 1
calls to `writeBufferToCafs` for one destination with body steps of the
event loop, every caller is handed the same promise (id 0) — possible
because locker lookup and registration happen in one atomic step — the
trace shows at most one temp write and at most one rename, and when the
shared promise resolves, every caller receives that same birth
timestamp. -/
theorem writeBufferToCafs_dedup_within_session (env : DiskEnv)
    (cafsDir fileDest : String) (fs0 : Fs) (c0 : Nat) (ops : List SOp)
    (hops : ops.all (callsTo cafsDir fileDest) = true) :
    (∀ x ∈ (runOps env (initSession fs0 c0) ops).2, x = 0) ∧
    tcount (runOps env (initSession fs0 c0) ops).1.trace ≤ 1 ∧
    rcount (runOps env (initSession fs0 c0) ops).1.trace ≤ 1 ∧
    (∀ t, promState (runOps env (initSession fs0 c0) ops).1 0 = some (.resolved t) →
       ∀ x ∈ (runOps env (initSession fs0 c0) ops).2,
         promState (runOps env (initSession fs0 c0) ops).1 x = some (.resolved t)) := by
  have h0 : InvC1 (pathJoin cafsDir fileDest) (initSession fs0 c0) := by
    left
    refine ⟨rfl, rfl, rfl, ?_, ?_⟩ <;> simp [initSession, tcount, rcount]
  have h := invC1_run env cafsDir fileDest ops (initSession fs0 c0) hops h0
  have hcnt := invC1_counts (pathJoin cafsDir fileDest) _ h.2
  refine ⟨h.1, hcnt.1, hcnt.2, ?_⟩
  intro t ht x hx
  rw [h.1 x hx]
  exact ht

/-- C1 witness: three interleaved callers (with differing buffers and
descriptors) of one destination all receive promise 0, and the trace of
the whole run shows one temp write and one rename. -/
theorem writeBufferToCafs_dedup_within_session_witness :
    opsSameDest.all (callsTo "store" "ab/cd1") = true ∧
    (∀ x ∈ (runOps envOk (initSession [] 0) opsSameDest).2, x = 0) ∧
    tcount (runOps envOk (initSession [] 0) opsSameDest).1.trace ≤ 1 ∧
    rcount (runOps envOk (initSession [] 0) opsSameDest).1.trace ≤ 1 := by
  have h := writeBufferToCafs_dedup_within_session envOk "store" "ab/cd1" [] 0
    opsSameDest (by decide)
  exact ⟨by decide, h.1, h.2.1, h.2.2.1⟩

/-! ## C6 — fatal errors broadcast to every joined caller -/

/-- C6: in a session whose calls all target one destination, when the
destination's single in-flight write fails with a fatal error, every
caller that joined — each holds the same promise — receives exactly that
rejection; no caller sees a different error or a success. -/
theorem writeBufferToCafs_error_broadcast (env : DiskEnv)
    (cafsDir fileDest : String) (fs0 : Fs) (c0 : Nat) (ops : List SOp)
    (hops : ops.all (callsTo cafsDir fileDest) = true) (e : ErrCode)
    (hfail : promState (runOps env (initSession fs0 c0) ops).1 0 = some (.rejected e)) :
    ∀ x ∈ (runOps env (initSession fs0 c0) ops).2,
      promState (runOps env (initSession fs0 c0) ops).1 x = some (.rejected e) := by
  have h0 : InvC1 (pathJoin cafsDir fileDest) (initSession fs0 c0) := by
    left
    refine ⟨rfl, rfl, rfl, ?_, ?_⟩ <;> simp [initSession, tcount, rcount]
  have h := invC1_run env cafsDir fileDest ops (initSession fs0 c0) hops h0
  intro x hx
  rw [h.1 x hx]
  exact hfail

/-- C6 witness: two callers join the same destination, the temp write
fails with EACCES, and both callers' promise carries that same
rejection. -/
theorem writeBufferToCafs_error_broadcast_witness :
    opsFailDest.all (callsTo "store" "ab/cd1") = true ∧
    promState (runOps envWriteFail (initSession [] 0) opsFailDest).1 0 =
      some (.rejected "EACCES") ∧
    (runOps envWriteFail (initSession [] 0) opsFailDest).2 = [0, 0] ∧
    ∀ x ∈ (runOps envWriteFail (initSession [] 0) opsFailDest).2,
      promState (runOps envWriteFail (initSession [] 0) opsFailDest).1 x =
        some (.rejected "EACCES") := by
  refine ⟨by decide, by decide, by decide, ?_⟩
  exact writeBufferToCafs_error_broadcast envWriteFail "store" "ab/cd1" [] 0 opsFailDest
    (by decide) "EACCES" (by decide)
